import Mathlib

/-!
# RouteMaster — verification of the route-optimization core

Shallow embedding of the route-optimization module (`optimizeRoute` and its
helpers): the haversine distance estimator, the distance/time cost matrices
with the time-of-day traffic multiplier, the nearest-neighbor tour
construction, and the 2-opt local-search improvement.

The JavaScript source works on IEEE doubles and mutable arrays; here the
numeric layer is modelled over `ℝ` (the cost formulas are transcendental), the
algorithmic layer is generic over a linear ordered field so that concrete
evaluations can run over `ℚ`, and a small `JNum` type models the IEEE special
values (`Infinity`, `NaN`) where their semantics matter (the `minScore`
sentinel of the nearest-neighbor selection and NaN propagation through the
cost math).
-/

set_option maxHeartbeats 1000000

namespace RouteMaster

open Real

/-- `interface Location`: a geographic point with a human-readable address and
latitude/longitude in degrees. -/
structure Location where
  address : String
  lat : ℝ
  lng : ℝ
deriving Inhabited

/-- JavaScript's `Math.atan2 y x`: the angle of the point `(x, y)`, in
`(-π, π]`. -/
noncomputable def atan2 (y x : ℝ) : ℝ :=
  if 0 < x then Real.arctan (y / x)
  else if x < 0 then
    (if 0 ≤ y then Real.arctan (y / x) + Real.pi else Real.arctan (y / x) - Real.pi)
  else
    (if 0 < y then Real.pi / 2 else if y < 0 then -(Real.pi / 2) else 0)

/-- `calculateDistance` (source lines 28–40): haversine great-circle distance
in miles, Earth radius 3959 miles. -/
noncomputable def calculateDistance (point1 point2 : Location) : ℝ :=
  let R : ℝ := 3959
  let dLat := (point2.lat - point1.lat) * Real.pi / 180
  let dLon := (point2.lng - point1.lng) * Real.pi / 180
  let a := Real.sin (dLat / 2) * Real.sin (dLat / 2) +
    Real.cos (point1.lat * Real.pi / 180) * Real.cos (point2.lat * Real.pi / 180) *
      Real.sin (dLon / 2) * Real.sin (dLon / 2)
  let c := 2 * atan2 (Real.sqrt a) (Real.sqrt (1 - a))
  R * c

/-- The waypoint sequence built at the top of `optimizeRoute` (lines 60–62):
`[start, ...stops, end]`, or `[start, ...stops, start]` when no end location
is supplied. -/
def allPoints (startLocation : Location) (stops : List Location)
    (endLocation : Option Location) : List Location :=
  match endLocation with
  | some e => startLocation :: (stops ++ [e])
  | none => startLocation :: (stops ++ [startLocation])

/-- The traffic factor computed from an hour of day (lines 82–92): 1.5 during
rush hour (7–10 and 16–19), 0.8 at night (hour ≥ 22 or ≤ 5), 1 otherwise. -/
noncomputable def trafficFactor (hour : ℕ) : ℝ :=
  if (7 ≤ hour ∧ hour ≤ 10) ∨ (16 ≤ hour ∧ hour ≤ 19) then 1.5
  else if 22 ≤ hour ∨ hour ≤ 5 then 0.8
  else 1

/-- The distance matrix filled by the nested loops of `optimizeRoute`
(lines 66–79): an n×n matrix, 0 on the diagonal, haversine distance off it.
(`pts.getD i default` models the in-range access `allPoints[i]`.) -/
noncomputable def distanceMatrix (pts : List Location) : List (List ℝ) :=
  (List.range pts.length).map fun i => (List.range pts.length).map fun j =>
    if i = j then 0 else calculateDistance (pts.getD i default) (pts.getD j default)

/-- The time matrix filled by the same loops (lines 80–95).  The source reads
`new Date().getHours()` inside the cell loop — one read per off-diagonal cell —
so the wall clock is modelled as an oracle `clock i j`, the hour observed while
cell `(i, j)` is being filled. -/
noncomputable def timeMatrix (clock : ℕ → ℕ → ℕ) (pts : List Location) : List (List ℝ) :=
  (List.range pts.length).map fun i => (List.range pts.length).map fun j =>
    if i = j then 0
    else (calculateDistance (pts.getD i default) (pts.getD j default) / 30) * 60 *
      trafficFactor (clock i j)

/-- `matrix[i][j]` access on the list-of-lists matrices. -/
def entry (m : List (List ℝ)) (i j : ℕ) : ℝ := (m.getD i []).getD j 0

section Algorithm

variable {α : Type} [LinearOrderedField α]

/-- The blended candidate score of line 114:
`distanceScore * 0.3 + timeScore * 0.7`. -/
def combinedScore (D T : ℕ → ℕ → α) (current next : ℕ) : α :=
  D current next * 0.3 + T current next * 0.7

/-- The body of the `for (const next of unvisited)` selection loop
(lines 110–119): compare the candidate's blended score against the running
minimum, keeping the earlier candidate on ties (strict `<`). -/
def selStep (D T : ℕ → ℕ → α) (current : ℕ) (best : Option (ℕ × α)) (next : ℕ) :
    Option (ℕ × α) :=
  match best with
  | none => some (next, combinedScore D T current next)
  | some (b, m) =>
    if combinedScore D T current next < m then some (next, combinedScore D T current next)
    else some (b, m)

/-- The `for (const next of unvisited)` selection (lines 107–120).  The JS
sentinel state `nearest = -1, minScore = Infinity` is modelled as `none`; any
score of the linear order beats the initial `Infinity`, so over a field the
fold returns `some` as soon as one candidate is scanned. -/
def selectNearest (D T : ℕ → ℕ → α) (current : ℕ) (unvisited : List ℕ) : Option ℕ :=
  (unvisited.foldl (selStep D T current) none).map Prod.fst

/-- The `while (unvisited.size > 0)` loop of `findNearestNeighborRoute`
(lines 105–124), fueled.  Each iteration reads the last-placed index
(`route[route.length - 1]`), selects the nearest unvisited candidate, appends
it and removes it from the unvisited list (a JS `Set` iterates and deletes in
insertion order, so a list models it exactly).  Fuel equal to the number of
unvisited indices provably suffices.  The `none` branch corresponds to the JS
sentinel `-1` surviving the scan, which over a linear order cannot happen for
a nonempty unvisited set. -/
def nnLoop (D T : ℕ → ℕ → α) : ℕ → List ℕ → List ℕ → List ℕ
  | 0, route, _ => route
  | fuel + 1, route, unvisited =>
    if unvisited.isEmpty then route
    else
      match selectNearest D T (route.getLastD 0) unvisited with
      | some nearest => nnLoop D T fuel (route ++ [nearest]) (unvisited.erase nearest)
      | none => route

/-- `findNearestNeighborRoute` (lines 101–128): start from `[0]`, greedily
append unvisited indices `{1, …, n-2}` (created in ascending order), then
append the end index `n-1`. -/
def findNearestNeighborRoute (D T : ℕ → ℕ → α) (n : ℕ) : List ℕ :=
  nnLoop D T (n - 2) [0] (List.range' 1 (n - 2)) ++ [n - 1]

/-- The distance accumulation of `calculateRouteScore` (line 158): sum of
`distanceMatrix[route[i]][route[i+1]]` over consecutive pairs. -/
def routeDistance (D : ℕ → ℕ → α) : List ℕ → α
  | a :: b :: rest => D a b + routeDistance D (b :: rest)
  | _ => 0

/-- The time accumulation of `calculateRouteScore` (line 159). -/
def routeTime (T : ℕ → ℕ → α) : List ℕ → α
  | a :: b :: rest => T a b + routeTime T (b :: rest)
  | _ => 0

/-- `calculateRouteScore` (lines 154–162): blended score
`distance * 0.3 + time * 0.7`. -/
def calculateRouteScore (D T : ℕ → ℕ → α) (route : List ℕ) : α :=
  routeDistance D route * 0.3 + routeTime T route * 0.7

/-- `twoOptSwap` (lines 185–193): the two-pointer in-place swap loop, which for
`i ≤ j < route.length` (the only way the algorithm invokes it) reverses the
segment `[i, j]` of the copied array; for `i > j` the loop body never runs and
the copy is returned unchanged. -/
def twoOptSwap (route : List ℕ) (i j : ℕ) : List ℕ :=
  if i ≤ j then
    route.take i ++ ((route.drop i).take (j + 1 - i)).reverse ++ route.drop (j + 1)
  else route

/-- The `(i, j)` pairs visited by the nested `for` loops of `improve2Opt`
(lines 137–138), in scan order: `1 ≤ i < len - 2`, `i + 1 ≤ j < len - 1`.
(`route.length` is re-read by the JS loops, but every swap the scan applies
preserves the length, so the pair list may be computed up front.) -/
def pairsIdx (len : ℕ) : List (ℕ × ℕ) :=
  (List.range' 1 (len - 3)).flatMap fun i =>
    (List.range' (i + 1) (len - 2 - i)).map fun j => (i, j)

/-- The body of one `while (improved)` pass (lines 136–148): scan all pairs,
comparing each candidate against the running best and accepting any strict
improvement in place (later candidates of the same pass see the just-improved
route). -/
def scanPairs (D T : ℕ → ℕ → α) : List (ℕ × ℕ) → List ℕ → α → Bool → List ℕ × α × Bool
  | [], route, bestScore, improved => (route, bestScore, improved)
  | (i, j) :: rest, route, bestScore, improved =>
    let newRoute := twoOptSwap route i j
    let newScore := calculateRouteScore D T newRoute
    if newScore < bestScore then scanPairs D T rest newRoute newScore true
    else scanPairs D T rest route bestScore improved

/-- The `while (improved)` loop of `improve2Opt` (lines 135–149), fueled: run
passes until one makes no improvement (or fuel runs out). -/
def improve2OptLoop (D T : ℕ → ℕ → α) : ℕ → List ℕ → α → List ℕ
  | 0, route, _ => route
  | fuel + 1, route, bestScore =>
    match scanPairs D T (pairsIdx route.length) route bestScore false with
    | (route2, bestScore2, true) => improve2OptLoop D T fuel route2 bestScore2
    | (route2, _, false) => route2

/-- `improve2Opt` (lines 131–151).  Every accepted swap strictly decreases the
best score and every candidate tour is a permutation of the input, so at most
`route.length !` passes can improve; fuel `route.length ! + 1` provably makes
the fueled loop agree with the unbounded JS `while` loop. -/
def improve2Opt (D T : ℕ → ℕ → α) (route : List ℕ) : List ℕ :=
  improve2OptLoop D T (Nat.factorial route.length + 1) route (calculateRouteScore D T route)

/-- The `reduce` computing the final distance (lines 171–174): index 0
contributes 0, index `i ≥ 1` adds `distanceMatrix[route[i-1]][route[i]]`. -/
def finalDistance (D : ℕ → ℕ → α) (route : List ℕ) : α :=
  route.enum.foldl
    (fun total p => if p.1 = 0 then 0 else total + D (route.getD (p.1 - 1) 0) p.2) 0

end Algorithm

/-- `interface OptimizedRoute` (lines 9–14). -/
structure OptimizedRoute where
  coordinates : List (ℝ × ℝ)
  order : List ℕ
  distance : ℝ
  duration : ℝ

/-- `optimizeRoute` (lines 54–182): build the waypoint sequence and the two
cost matrices, construct the nearest-neighbor tour, improve it by 2-opt,
recompute the final distance from the distance matrix alone, and return the
route with `duration = 0`. -/
noncomputable def optimizeRoute (clock : ℕ → ℕ → ℕ) (startLocation : Location)
    (stops : List Location) (endLocation : Option Location) : OptimizedRoute :=
  let pts := allPoints startLocation stops endLocation
  let n := pts.length
  let D := entry (distanceMatrix pts)
  let T := entry (timeMatrix clock pts)
  let bestRoute := improve2Opt D T (findNearestNeighborRoute D T n)
  { coordinates := bestRoute.map fun i => ((pts.getD i default).lng, (pts.getD i default).lat)
    order := bestRoute
    distance := finalDistance D bestRoute
    duration := 0 }

/-! ## IEEE-value model

The total model above cannot express the IEEE special values.  `JNum` models
the double values that actually arise in the optimizer — finite numbers (as
exact rationals), the `minScore` sentinel `Infinity`, and `NaN` from
non-finite coordinates — with IEEE comparison (`NaN` incomparable) and
arithmetic (`NaN` propagates). -/

inductive JNum where
  | fin : ℚ → JNum
  | posInf : JNum
  | negInf : JNum
  | nan : JNum
deriving DecidableEq

namespace JNum

/-- IEEE `<`: any comparison involving NaN is false. -/
def lt : JNum → JNum → Bool
  | nan, _ => false
  | _, nan => false
  | fin a, fin b => decide (a < b)
  | fin _, posInf => true
  | negInf, fin _ => true
  | negInf, posInf => true
  | _, _ => false

/-- IEEE addition on the modelled values. -/
def add : JNum → JNum → JNum
  | nan, _ => nan
  | _, nan => nan
  | posInf, negInf => nan
  | negInf, posInf => nan
  | posInf, _ => posInf
  | _, posInf => posInf
  | negInf, _ => negInf
  | _, negInf => negInf
  | fin a, fin b => fin (a + b)

/-- IEEE multiplication on the modelled values. -/
def mul : JNum → JNum → JNum
  | nan, _ => nan
  | _, nan => nan
  | posInf, posInf => posInf
  | posInf, negInf => negInf
  | negInf, posInf => negInf
  | negInf, negInf => posInf
  | posInf, fin b => if b = 0 then nan else if 0 < b then posInf else negInf
  | fin a, posInf => if a = 0 then nan else if 0 < a then posInf else negInf
  | negInf, fin b => if b = 0 then nan else if 0 < b then negInf else posInf
  | fin a, negInf => if a = 0 then nan else if 0 < a then negInf else posInf
  | fin a, fin b => fin (a * b)

end JNum

/-- `matrix[current]` with a JS signed index: `some` row when `0 ≤ current <
length`, otherwise the JS value is `undefined` and the subsequent indexing
`undefined[next]` throws a `TypeError`. -/
def jRow (m : List (List JNum)) (current : Int) : Option (List JNum) :=
  if 0 ≤ current ∧ current.toNat < m.length then some (m.getD current.toNat []) else none

/-- `row[next]` for an existing row: an out-of-range element is `undefined`,
which behaves as NaN in the multiplication it immediately flows into. -/
def jCell (row : List JNum) (next : Int) : JNum :=
  if 0 ≤ next ∧ next.toNat < row.length then row.getD next.toNat .nan else .nan

/-- The candidate scan of `findNearestNeighborRoute` (lines 107–120) with JS
semantics: `nearest` starts at `-1`, `minScore` at `Infinity`; an access to a
missing matrix row throws (modelled as `.error ()`). -/
def selectLoopJ (dM tM : List (List JNum)) (current : Int) :
    List Int → Int → JNum → Except Unit (Int × JNum)
  | [], nearest, minScore => .ok (nearest, minScore)
  | next :: rest, nearest, minScore =>
    match jRow dM current, jRow tM current with
    | some dRow, some tRow =>
      let s := ((jCell dRow next).mul (.fin (3 / 10))).add ((jCell tRow next).mul (.fin (7 / 10)))
      if s.lt minScore then selectLoopJ dM tM current rest next s
      else selectLoopJ dM tM current rest nearest minScore
    | _, _ => .error ()

/-- The `while (unvisited.size > 0)` loop with JS semantics (lines 105–124),
fueled: `none` means the fuel ran out with the loop still running, `some
(.error ())` means a thrown `TypeError`, `some (.ok route)` normal exit. -/
def nnLoopJ (dM tM : List (List JNum)) : ℕ → List Int → List Int →
    Option (Except Unit (List Int))
  | 0, _, _ => none
  | fuel + 1, route, unvisited =>
    if unvisited.isEmpty then some (.ok route)
    else
      match selectLoopJ dM tM (route.getLastD 0) unvisited (-1) .posInf with
      | .error e => some (.error e)
      | .ok (nearest, _) => nnLoopJ dM tM fuel (route ++ [nearest]) (unvisited.erase nearest)

/-- `findNearestNeighborRoute` with JS semantics, fueled. -/
def findNearestNeighborRouteJ (fuel : ℕ) (dM tM : List (List JNum)) (n : ℕ) :
    Option (Except Unit (List Int)) :=
  (nnLoopJ dM tM fuel [0] ((List.range' 1 (n - 2)).map Int.ofNat)).map
    (fun r => r.map (· ++ [Int.ofNat (n - 1)]))

/-- The 3×3 cost matrix arising (per the IEEE propagation of §4.1/§7 of the
spec) from a start at finite coordinates and a single stop with a NaN
coordinate, no end location: every cell touching index 1 is NaN, the others
(same-point pairs and the diagonal) are 0. -/
def nanMatrix3 : List (List JNum) :=
  [[.fin 0, .nan, .fin 0], [.nan, .fin 0, .nan], [.fin 0, .nan, .fin 0]]

/-- Start location of the clock counterexample. -/
def locA : Location := ⟨"A", 0, 0⟩

/-- Stop location of the clock counterexample: antipodal in latitude angle, so
the haversine arc is exactly π and the distance is provably nonzero. -/
def locB : Location := ⟨"B", 180, 0⟩

/-- A wall clock that crosses an hour boundary while the matrices are built:
the read for cell (0,1) falls in rush hour, every other read at night. -/
def badClock : ℕ → ℕ → ℕ := fun i j => if i = 0 ∧ j = 1 then 8 else 23

/-- The number of tours among the permutations of `r0` scoring strictly below
`r`: the termination measure of the 2-opt while loop. -/
def belowCount {α : Type} [LinearOrderedField α] (D T : ℕ → ℕ → α) (r0 r : List ℕ) : ℕ :=
  (r0.permutations.toFinset.filter
    (fun t => calculateRouteScore D T t < calculateRouteScore D T r)).card

end RouteMaster

namespace RouteMaster
section Lemmas
variable {α : Type} [LinearOrderedField α] (D T : ℕ → ℕ → α)

/-- Invariant of the selection fold: starting from a concrete running best,
the fold returns a running best that is no worse, bounds every scanned
candidate, and is either unchanged or a scanned candidate holding its own
score. -/
lemma selFold_some (current : ℕ) :
    ∀ (l : List ℕ) (b : ℕ) (s : α),
      ∃ b' s', l.foldl (selStep D T current) (some (b, s)) = some (b', s') ∧
        s' ≤ s ∧ (∀ x ∈ l, s' ≤ combinedScore D T current x) ∧
        ((b' = b ∧ s' = s) ∨
          (b' ∈ l ∧ s' = combinedScore D T current b' ∧ s' < s)) := by
  intro l
  induction l with
  | nil => exact fun b s => ⟨b, s, rfl, le_refl _, by simp, Or.inl ⟨rfl, rfl⟩⟩
  | cons y ys ih =>
    intro b s
    by_cases hy : combinedScore D T current y < s
    · obtain ⟨b', s', heq, hle, hall, hdisj⟩ := ih y (combinedScore D T current y)
      refine ⟨b', s', ?_, le_of_lt (lt_of_le_of_lt hle hy), ?_, ?_⟩
      · simpa [selStep, hy] using heq
      · intro x hx
        rcases List.mem_cons.mp hx with rfl | hx
        · exact hle
        · exact hall x hx
      · rcases hdisj with ⟨rfl, rfl⟩ | ⟨hmem, hsc, hlt⟩
        · exact Or.inr ⟨List.mem_cons_self _ _, rfl, hy⟩
        · exact Or.inr ⟨List.mem_cons_of_mem _ hmem, hsc, lt_trans hlt hy⟩
    · obtain ⟨b', s', heq, hle, hall, hdisj⟩ := ih b s
      refine ⟨b', s', ?_, hle, ?_, ?_⟩
      · simpa [selStep, hy] using heq
      · intro x hx
        rcases List.mem_cons.mp hx with rfl | hx
        · exact le_trans hle (not_lt.mp hy)
        · exact hall x hx
      · rcases hdisj with ⟨rfl, rfl⟩ | ⟨hmem, hsc, hlt⟩
        · exact Or.inl ⟨rfl, rfl⟩
        · exact Or.inr ⟨List.mem_cons_of_mem _ hmem, hsc, hlt⟩

/-- Over a linear order, a nonempty unvisited list always yields a selected
candidate that belongs to the list and minimizes the blended score. -/
lemma selectNearest_mem (current : ℕ) (l : List ℕ) (hne : l ≠ []) :
    ∃ m, selectNearest D T current l = some m ∧ m ∈ l ∧
      ∀ x ∈ l, combinedScore D T current m ≤ combinedScore D T current x := by
  match l, hne with
  | y :: ys, _ =>
    obtain ⟨b', s', heq, hle, hall, hdisj⟩ := selFold_some D T current ys y
      (combinedScore D T current y)
    have hsc : s' = combinedScore D T current b' := by
      rcases hdisj with ⟨rfl, rfl⟩ | ⟨_, hsc, _⟩
      · rfl
      · exact hsc
    refine ⟨b', ?_, ?_, ?_⟩
    · simp [selectNearest, selStep, heq]
    · rcases hdisj with ⟨rfl, _⟩ | ⟨hmem, _, _⟩
      · exact List.mem_cons_self _ _
      · exact List.mem_cons_of_mem _ hmem
    · intro x hx
      rcases List.mem_cons.mp hx with rfl | hx
      · exact hsc ▸ hle
      · exact hsc ▸ hall x hx

end Lemmas
end RouteMaster

namespace RouteMaster
section Lemmas2
variable {α : Type} [LinearOrderedField α] (D T : ℕ → ℕ → α)

/-- On a strictly ascending unvisited list the fold additionally keeps the
first (hence least-index) candidate among ties. -/
lemma selFold_sorted (current : ℕ) :
    ∀ (l : List ℕ) (b : ℕ) (s : α), l.Sorted (· < ·) →
      ∃ b' s', l.foldl (selStep D T current) (some (b, s)) = some (b', s') ∧
        s' ≤ s ∧ (∀ x ∈ l, s' ≤ combinedScore D T current x) ∧
        ((b' = b ∧ s' = s) ∨
          (b' ∈ l ∧ s' = combinedScore D T current b' ∧ s' < s)) ∧
        (∀ x ∈ l, combinedScore D T current x = s' → b' = b ∨ b' ≤ x) := by
  intro l
  induction l with
  | nil => exact fun b s _ => ⟨b, s, rfl, le_refl _, by simp, Or.inl ⟨rfl, rfl⟩, by simp⟩
  | cons y ys ih =>
    intro b s hsort
    obtain ⟨hyall, hsort2⟩ := List.sorted_cons.mp hsort
    by_cases hy : combinedScore D T current y < s
    · obtain ⟨b', s', heq, hle, hall, hdisj, htie⟩ := ih y (combinedScore D T current y) hsort2
      refine ⟨b', s', by simpa [selStep, hy] using heq,
        le_of_lt (lt_of_le_of_lt hle hy), ?_, ?_, ?_⟩
      · intro x hx
        rcases List.mem_cons.mp hx with rfl | hx
        · exact hle
        · exact hall x hx
      · rcases hdisj with ⟨rfl, rfl⟩ | ⟨hmem, hsc, hlt⟩
        · exact Or.inr ⟨List.mem_cons_self _ _, rfl, hy⟩
        · exact Or.inr ⟨List.mem_cons_of_mem _ hmem, hsc, lt_trans hlt hy⟩
      · intro x hx hxs
        rcases List.mem_cons.mp hx with rfl | hx
        · rcases hdisj with ⟨rfl, _⟩ | ⟨_, _, hlt⟩
          · exact Or.inr (le_refl _)
          · exact absurd (hxs ▸ hlt) (lt_irrefl _)
        · rcases htie x hx hxs with hby | hbx
          · refine Or.inr ?_
            rw [hby]
            exact le_of_lt (hyall x hx)
          · exact Or.inr hbx
    · obtain ⟨b', s', heq, hle, hall, hdisj, htie⟩ := ih b s hsort2
      refine ⟨b', s', by simpa [selStep, hy] using heq, hle, ?_, ?_, ?_⟩
      · intro x hx
        rcases List.mem_cons.mp hx with rfl | hx
        · exact le_trans hle (not_lt.mp hy)
        · exact hall x hx
      · rcases hdisj with ⟨rfl, rfl⟩ | ⟨hmem, hsc, hlt⟩
        · exact Or.inl ⟨rfl, rfl⟩
        · exact Or.inr ⟨List.mem_cons_of_mem _ hmem, hsc, hlt⟩
      · intro x hx hxs
        rcases List.mem_cons.mp hx with rfl | hx
        · rcases hdisj with ⟨rfl, rfl⟩ | ⟨_, _, hlt⟩
          · exact Or.inl rfl
          · exact absurd (lt_of_lt_of_le hlt (not_lt.mp hy)) (hxs ▸ lt_irrefl _)
        · rcases htie x hx hxs with hby | hbx
          · exact Or.inl hby
          · exact Or.inr hbx

/-- On a nonempty strictly ascending unvisited list, the selection returns the
minimal-score candidate, and among equal-score candidates the least index. -/
lemma selectNearest_sorted (current : ℕ) (l : List ℕ) (hne : l ≠ [])
    (hsort : l.Sorted (· < ·)) :
    ∃ m, selectNearest D T current l = some m ∧ m ∈ l ∧
      (∀ x ∈ l, combinedScore D T current m ≤ combinedScore D T current x) ∧
      (∀ x ∈ l, combinedScore D T current x = combinedScore D T current m → m ≤ x) := by
  match l, hne, hsort with
  | y :: ys, _, hsort =>
    obtain ⟨hyall, hsort2⟩ := List.sorted_cons.mp hsort
    obtain ⟨b', s', heq, hle, hall, hdisj, htie⟩ := selFold_sorted D T current ys y
      (combinedScore D T current y) hsort2
    have hsc : s' = combinedScore D T current b' := by
      rcases hdisj with ⟨rfl, rfl⟩ | ⟨_, hsc, _⟩
      · rfl
      · exact hsc
    refine ⟨b', by simp [selectNearest, selStep, heq], ?_, ?_, ?_⟩
    · rcases hdisj with ⟨rfl, _⟩ | ⟨hmem, _, _⟩
      · exact List.mem_cons_self _ _
      · exact List.mem_cons_of_mem _ hmem
    · intro x hx
      rcases List.mem_cons.mp hx with rfl | hx
      · exact hsc ▸ hle
      · exact hsc ▸ hall x hx
    · intro x hx hxs
      have hxs2 : combinedScore D T current x = s' := by rw [hxs, hsc]
      rcases List.mem_cons.mp hx with rfl | hx
      · rcases hdisj with ⟨hby, _⟩ | ⟨_, _, hlt⟩
        · rw [hby]
        · rw [hsc] at hlt
          rw [hxs] at hlt
          exact absurd hlt (lt_irrefl _)
      · rcases htie x hx hxs2 with hby | hbx
        · rw [hby]
          exact le_of_lt (hyall x hx)
        · exact hbx

end Lemmas2
end RouteMaster

namespace RouteMaster
section Lemmas3
variable {α : Type} [LinearOrderedField α] (D T : ℕ → ℕ → α)

/-- With fuel at least the number of unvisited indices, the nearest-neighbor
loop appends exactly the unvisited indices, in some order. -/
lemma nnLoop_spec : ∀ (fuel : ℕ) (route unvisited : List ℕ),
    unvisited.length ≤ fuel →
    ∃ t, nnLoop D T fuel route unvisited = route ++ t ∧ t.Perm unvisited := by
  intro fuel
  induction fuel with
  | zero =>
    intro route unvisited h
    have : unvisited = [] := List.length_eq_zero.mp (Nat.le_zero.mp h)
    subst this
    exact ⟨[], by simp [nnLoop], List.Perm.refl _⟩
  | succ fuel ih =>
    intro route unvisited h
    by_cases hne : unvisited = []
    · subst hne
      exact ⟨[], by simp [nnLoop], List.Perm.refl _⟩
    · obtain ⟨m, hsel, hmem, -⟩ := selectNearest_mem D T (route.getLastD 0) unvisited hne
      have hlen : (unvisited.erase m).length ≤ fuel := by
        rw [List.length_erase_of_mem hmem]
        omega
      obtain ⟨t, ht, hperm⟩ := ih (route ++ [m]) (unvisited.erase m) hlen
      refine ⟨m :: t, ?_, ?_⟩
      · rw [nnLoop]
        simp only [List.isEmpty_iff, hne, if_neg, hsel]
        simpa using ht
      · exact (hperm.cons m).trans (List.perm_cons_erase hmem).symm
  
/-- The nearest-neighbor route is `0`, the intermediate indices in some order,
then `n-1`. -/
lemma findNN_struct (n : ℕ) :
    ∃ t, findNearestNeighborRoute D T n = 0 :: (t ++ [n - 1]) ∧
      t.Perm (List.range' 1 (n - 2)) := by
  obtain ⟨t, ht, hperm⟩ := nnLoop_spec D T (n - 2) [0] (List.range' 1 (n - 2)) (by simp)
  exact ⟨t, by simp [findNearestNeighborRoute, ht], hperm⟩

end Lemmas3
end RouteMaster

namespace RouteMaster
section Lemmas4

/-- Decomposition of a list around the segment a 2-opt swap reverses. -/
lemma swap_decomp (r : List ℕ) (i j : ℕ) (hij : i ≤ j) :
    r = r.take i ++ ((r.drop i).take (j + 1 - i)) ++ r.drop (j + 1) := by
  have h2 : (r.drop i).drop (j + 1 - i) = r.drop (j + 1) := by
    rw [List.drop_drop]
    congr 1
    omega
  rw [← h2, List.append_assoc, List.take_append_drop, List.take_append_drop]

/-- A 2-opt swap permutes the route. -/
lemma twoOptSwap_perm (r : List ℕ) (i j : ℕ) : (twoOptSwap r i j).Perm r := by
  unfold twoOptSwap
  by_cases hij : i ≤ j
  · simp only [hij, if_pos]
    conv_rhs => rw [swap_decomp r i j hij]
    exact (((r.drop i).take (j + 1 - i)).reverse_perm.append_left _).append_right _
  · simp [hij]

/-- A 2-opt swap preserves the route length. -/
lemma twoOptSwap_length (r : List ℕ) (i j : ℕ) :
    (twoOptSwap r i j).length = r.length :=
  (twoOptSwap_perm r i j).length_eq

/-- A 2-opt swap with `1 ≤ i` fixes the start anchor. -/
lemma twoOptSwap_head? (r : List ℕ) (i j : ℕ) (hi : 1 ≤ i) :
    (twoOptSwap r i j).head? = r.head? := by
  unfold twoOptSwap
  by_cases hij : i ≤ j
  · simp only [hij, if_pos]
    cases r with
    | nil => simp
    | cons a t =>
      obtain ⟨i2, rfl⟩ : ∃ i2, i = i2 + 1 := ⟨i - 1, by omega⟩
      simp [List.take_succ_cons, List.head?_append]
  · simp [hij]

/-- Dropping fewer than all elements preserves the last element. -/
lemma getLast?_drop_of_lt (r : List ℕ) (k : ℕ) (hk : k < r.length) :
    (r.drop k).getLast? = r.getLast? := by
  rw [List.getLast?_eq_getElem?, List.getLast?_eq_getElem?, List.getElem?_drop,
    List.length_drop]
  congr 1
  omega

/-- A 2-opt swap with `j ≤ length - 2` fixes the end anchor. -/
lemma twoOptSwap_getLast? (r : List ℕ) (i j : ℕ) (hij : i ≤ j) (hj : j + 2 ≤ r.length) :
    (twoOptSwap r i j).getLast? = r.getLast? := by
  unfold twoOptSwap
  simp only [hij, if_pos]
  have hC : r.drop (j + 1) ≠ [] := by
    rw [Ne, List.drop_eq_nil_iff]
    omega
  have hlast : (r.drop (j + 1)).getLast? = r.getLast? := getLast?_drop_of_lt r (j + 1) (by omega)
  obtain ⟨x, hx⟩ : ∃ x, (r.drop (j + 1)).getLast? = some x :=
    ⟨(r.drop (j + 1)).getLast hC, List.getLast?_eq_getLast _ hC⟩
  rw [List.append_assoc, List.getLast?_append, List.getLast?_append, hx, ← hlast, hx]
  rfl

end Lemmas4
end RouteMaster

namespace RouteMaster
section Lemmas5
variable {α : Type} [LinearOrderedField α] (D T : ℕ → ℕ → α)

/-- Every pair scanned by the nested loops is strictly inside the anchors. -/
lemma pairsIdx_mem {p : ℕ × ℕ} {len : ℕ} (hp : p ∈ pairsIdx len) :
    1 ≤ p.1 ∧ p.1 + 1 ≤ p.2 ∧ p.2 + 2 ≤ len := by
  obtain ⟨i, j⟩ := p
  simp only [pairsIdx, List.mem_flatMap, List.mem_map, List.mem_range'_1] at hp
  obtain ⟨a, ⟨ha1, ha2⟩, b, ⟨hb1, hb2⟩, heq⟩ := hp
  cases heq
  omega

end Lemmas5
end RouteMaster

namespace RouteMaster
section Lemmas6
variable {α : Type} [LinearOrderedField α] (D T : ℕ → ℕ → α)

/-- Invariants of one scan of the nested 2-opt loops: the returned route is a
permutation of the input with both anchors fixed, the returned best score is
the score of the returned route and never increases, the improved flag is
monotone, a scan that reports no improvement leaves route and score untouched,
and a scan that newly reports an improvement strictly decreased the score. -/
lemma scanPairs_spec :
    ∀ (ps : List (ℕ × ℕ)) (r : List ℕ) (b : α) (imp : Bool),
      (∀ p ∈ ps, 1 ≤ p.1 ∧ p.1 + 1 ≤ p.2 ∧ p.2 + 2 ≤ r.length) →
      b = calculateRouteScore D T r →
      (scanPairs D T ps r b imp).1.Perm r ∧
      (scanPairs D T ps r b imp).1.head? = r.head? ∧
      (scanPairs D T ps r b imp).1.getLast? = r.getLast? ∧
      (scanPairs D T ps r b imp).2.1 ≤ b ∧
      (scanPairs D T ps r b imp).2.1 =
        calculateRouteScore D T (scanPairs D T ps r b imp).1 ∧
      (imp = true → (scanPairs D T ps r b imp).2.2 = true) ∧
      ((scanPairs D T ps r b imp).2.2 = false →
        (scanPairs D T ps r b imp).1 = r ∧ (scanPairs D T ps r b imp).2.1 = b) ∧
      (imp = false → (scanPairs D T ps r b imp).2.2 = true →
        (scanPairs D T ps r b imp).2.1 < b) := by
  intro ps
  induction ps with
  | nil =>
    intro r b imp _ hb
    simp [scanPairs, hb]
  | cons p rest ih =>
    obtain ⟨i, j⟩ := p
    intro r b imp hps hb
    obtain ⟨hi, hij, hj⟩ := hps (i, j) (List.mem_cons_self _ _)
    have hrest : ∀ q ∈ rest, 1 ≤ q.1 ∧ q.1 + 1 ≤ q.2 ∧ q.2 + 2 ≤ r.length :=
      fun q hq => hps q (List.mem_cons_of_mem _ hq)
    have hperm := twoOptSwap_perm r i j
    have hlen : (twoOptSwap r i j).length = r.length := twoOptSwap_length r i j
    by_cases hlt : calculateRouteScore D T (twoOptSwap r i j) < b
    · have hrest2 : ∀ q ∈ rest, 1 ≤ q.1 ∧ q.1 + 1 ≤ q.2 ∧ q.2 + 2 ≤ (twoOptSwap r i j).length := by
        rw [hlen]; exact hrest
      obtain ⟨ihperm, ihhead, ihlast, ihle, ihscore, ihmono, ihfix, ihdec⟩ :=
        ih (twoOptSwap r i j) (calculateRouteScore D T (twoOptSwap r i j)) true hrest2 rfl
      have hstep : scanPairs D T ((i, j) :: rest) r b imp =
          scanPairs D T rest (twoOptSwap r i j)
            (calculateRouteScore D T (twoOptSwap r i j)) true := by
        simp [scanPairs, hlt]
      rw [hstep]
      refine ⟨ihperm.trans hperm, ?_, ?_, ?_, ihscore, fun _ => ihmono rfl, ?_, ?_⟩
      · rw [ihhead]; exact twoOptSwap_head? r i j hi
      · rw [ihlast]; exact twoOptSwap_getLast? r i j (by omega) hj
      · exact le_trans ihle (le_of_lt hlt)
      · intro hfalse
        exact absurd (ihmono rfl) (by simp [hfalse])
      · intro _ _
        exact lt_of_le_of_lt ihle hlt
    · have hstep : scanPairs D T ((i, j) :: rest) r b imp = scanPairs D T rest r b imp := by
        simp [scanPairs, hlt]
      rw [hstep]
      exact ih r b imp hrest hb

end Lemmas6
end RouteMaster

namespace RouteMaster
section Lemmas7
variable {α : Type} [LinearOrderedField α] (D T : ℕ → ℕ → α)

/-- The 2-opt while loop preserves the route's multiset and anchors and never
increases the blended score. -/
lemma improve2OptLoop_spec (fuel : ℕ) :
    ∀ (r : List ℕ) (b : α), b = calculateRouteScore D T r →
      (improve2OptLoop D T fuel r b).Perm r ∧
      (improve2OptLoop D T fuel r b).head? = r.head? ∧
      (improve2OptLoop D T fuel r b).getLast? = r.getLast? ∧
      calculateRouteScore D T (improve2OptLoop D T fuel r b) ≤ b := by
  induction fuel with
  | zero =>
    intro r b hb
    simp [improve2OptLoop, hb]
  | succ fuel ih =>
    intro r b hb
    rcases hscan : scanPairs D T (pairsIdx r.length) r b false with ⟨r2, b2, imp⟩
    have hval : ∀ p ∈ pairsIdx r.length, 1 ≤ p.1 ∧ p.1 + 1 ≤ p.2 ∧ p.2 + 2 ≤ r.length :=
      fun p hp => pairsIdx_mem hp
    have hspec := scanPairs_spec D T (pairsIdx r.length) r b false hval hb
    rw [hscan] at hspec
    dsimp only at hspec
    obtain ⟨hperm, hhead, hlast, hle, hscore, -, hfix, hdec⟩ := hspec
    cases imp with
    | false =>
      obtain ⟨hr2, hb2⟩ := hfix rfl
      have : improve2OptLoop D T (fuel + 1) r b = r2 := by
        rw [improve2OptLoop, hscan]
      rw [this, hr2]
      exact ⟨List.Perm.refl _, rfl, rfl, le_of_eq hb.symm⟩
    | true =>
      have hstep : improve2OptLoop D T (fuel + 1) r b = improve2OptLoop D T fuel r2 b2 := by
        rw [improve2OptLoop, hscan]
      obtain ⟨ihperm, ihhead, ihlast, ihle⟩ := ih r2 b2 hscore
      rw [hstep]
      exact ⟨ihperm.trans hperm, ihhead.trans hhead, ihlast.trans hlast,
        le_trans ihle hle⟩

/-- `improve2Opt` preserves the route's multiset and anchors and never
increases the blended score. -/
lemma improve2Opt_spec (r : List ℕ) :
    (improve2Opt D T r).Perm r ∧
    (improve2Opt D T r).head? = r.head? ∧
    (improve2Opt D T r).getLast? = r.getLast? ∧
    calculateRouteScore D T (improve2Opt D T r) ≤ calculateRouteScore D T r :=
  improve2OptLoop_spec D T (Nat.factorial r.length + 1) r _ rfl

end Lemmas7
end RouteMaster

namespace RouteMaster
section Lemmas8
variable {α : Type} [LinearOrderedField α] (D T : ℕ → ℕ → α)

/-- An improving pass strictly decreases the termination measure. -/
lemma belowCount_lt (r0 r r2 : List ℕ) (h2 : r2.Perm r0)
    (hlt : calculateRouteScore D T r2 < calculateRouteScore D T r) :
    belowCount D T r0 r2 < belowCount D T r0 r := by
  apply Finset.card_lt_card
  constructor
  · intro t ht
    simp only [Finset.mem_filter, List.mem_toFinset, List.mem_permutations] at ht ⊢
    exact ⟨ht.1, lt_trans ht.2 hlt⟩
  · intro hsub
    have : r2 ∈ r0.permutations.toFinset.filter
        (fun t => calculateRouteScore D T t < calculateRouteScore D T r) := by
      simp only [Finset.mem_filter, List.mem_toFinset, List.mem_permutations]
      exact ⟨h2, hlt⟩
    have := hsub this
    simp only [Finset.mem_filter] at this
    exact absurd this.2 (lt_irrefl _)

/-- The measure is bounded by the factorial of the route length. -/
lemma belowCount_le (r0 r : List ℕ) :
    belowCount D T r0 r ≤ Nat.factorial r0.length := by
  calc belowCount D T r0 r ≤ r0.permutations.toFinset.card := Finset.card_filter_le _ _
    _ ≤ r0.permutations.length := List.toFinset_card_le _
    _ = Nat.factorial r0.length := List.length_permutations r0

/-- With fuel beyond the measure, the fueled while loop no longer depends on
the amount of fuel: it has reached the loop's natural exit. -/
lemma improve2OptLoop_stable (k : ℕ) :
    ∀ (r0 r : List ℕ) (fuel1 fuel2 : ℕ), r.Perm r0 →
      belowCount D T r0 r < k → k ≤ fuel1 → k ≤ fuel2 →
      improve2OptLoop D T fuel1 r (calculateRouteScore D T r) =
        improve2OptLoop D T fuel2 r (calculateRouteScore D T r) := by
  induction k with
  | zero => intro r0 r fuel1 fuel2 _ hcard _ _; omega
  | succ k ih =>
    intro r0 r fuel1 fuel2 hperm0 hcard hf1 hf2
    obtain ⟨f1, rfl⟩ : ∃ f1, fuel1 = f1 + 1 := ⟨fuel1 - 1, by omega⟩
    obtain ⟨f2, rfl⟩ : ∃ f2, fuel2 = f2 + 1 := ⟨fuel2 - 1, by omega⟩
    rcases hscan : scanPairs D T (pairsIdx r.length) r (calculateRouteScore D T r) false
      with ⟨r2, b2, imp⟩
    have hspec := scanPairs_spec D T (pairsIdx r.length) r (calculateRouteScore D T r) false
      (fun p hp => pairsIdx_mem hp) rfl
    rw [hscan] at hspec
    dsimp only at hspec
    obtain ⟨hperm, -, -, -, hscore, -, -, hdec⟩ := hspec
    cases imp with
    | false =>
      rw [improve2OptLoop, improve2OptLoop, hscan]
    | true =>
      rw [improve2OptLoop, improve2OptLoop, hscan]
      have hlt : calculateRouteScore D T r2 < calculateRouteScore D T r := by
        rw [← hscore]
        exact hdec rfl rfl
      have hmeas : belowCount D T r0 r2 < k :=
        lt_of_lt_of_le (belowCount_lt D T r0 r r2 (hperm.trans hperm0) hlt) (by omega)
      rw [hscore]
      exact ih r0 r2 f1 f2 (hperm.trans hperm0) hmeas (by omega) (by omega)

/-- With fuel beyond the measure, the loop's result is a 2-opt local optimum:
one more pass over it reports no improvement (the JS `while (improved)` exits). -/
lemma improve2OptLoop_fixpoint (k : ℕ) :
    ∀ (r0 r : List ℕ) (fuel : ℕ), r.Perm r0 →
      belowCount D T r0 r < k → k ≤ fuel →
      (scanPairs D T
        (pairsIdx (improve2OptLoop D T fuel r (calculateRouteScore D T r)).length)
        (improve2OptLoop D T fuel r (calculateRouteScore D T r))
        (calculateRouteScore D T (improve2OptLoop D T fuel r (calculateRouteScore D T r)))
        false).2.2 = false := by
  induction k with
  | zero => intro r0 r fuel _ hcard _; omega
  | succ k ih =>
    intro r0 r fuel hperm0 hcard hf
    obtain ⟨f, rfl⟩ : ∃ f, fuel = f + 1 := ⟨fuel - 1, by omega⟩
    rcases hscan : scanPairs D T (pairsIdx r.length) r (calculateRouteScore D T r) false
      with ⟨r2, b2, imp⟩
    have hspec := scanPairs_spec D T (pairsIdx r.length) r (calculateRouteScore D T r) false
      (fun p hp => pairsIdx_mem hp) rfl
    rw [hscan] at hspec
    dsimp only at hspec
    obtain ⟨hperm, -, -, -, hscore, -, hfix, hdec⟩ := hspec
    cases imp with
    | false =>
      obtain ⟨hr2, hb2⟩ := hfix rfl
      have hres : improve2OptLoop D T (f + 1) r (calculateRouteScore D T r) = r2 := by
        rw [improve2OptLoop, hscan]
      rw [hres, hr2, hscan]
    | true =>
      have hres : improve2OptLoop D T (f + 1) r (calculateRouteScore D T r) =
          improve2OptLoop D T f r2 b2 := by
        rw [improve2OptLoop, hscan]
      have hlt : calculateRouteScore D T r2 < calculateRouteScore D T r := by
        rw [← hscore]
        exact hdec rfl rfl
      have hmeas : belowCount D T r0 r2 < k :=
        lt_of_lt_of_le (belowCount_lt D T r0 r r2 (hperm.trans hperm0) hlt) (by omega)
      rw [hres, hscore]
      exact ih r0 r2 f (hperm.trans hperm0) hmeas (by omega)

end Lemmas8
end RouteMaster

namespace RouteMaster
section Lemmas9
variable {α : Type} [LinearOrderedField α] (D T : ℕ → ℕ → α)

/-- Lists with at most one element have no consecutive pair. -/
lemma routeDistance_short (l : List ℕ) (h : l.length ≤ 1) : routeDistance D l = 0 := by
  match l, h with
  | [], _ => rfl
  | [a], _ => rfl

/-- The tail of the final-distance `reduce`, folded from position `k ≥ 1`,
adds exactly the consecutive-pair sums from position `k - 1` on. -/
lemma finalDistance_aux (r : List ℕ) :
    ∀ (m k : ℕ) (t : α), 1 ≤ k → k + m = r.length →
      ((r.drop k).enumFrom k).foldl
        (fun total p => if p.1 = 0 then 0 else total + D (r.getD (p.1 - 1) 0) p.2) t =
      t + routeDistance D (r.drop (k - 1)) := by
  intro m
  induction m with
  | zero =>
    intro k t hk hkm
    have hdrop : r.drop k = [] := by
      rw [List.drop_eq_nil_iff]
      omega
    have hshort : routeDistance D (r.drop (k - 1)) = 0 := by
      apply routeDistance_short
      rw [List.length_drop]
      omega
    rw [hdrop, hshort]
    simp [List.enumFrom]
  | succ m ih =>
    intro k t hk hkm
    have hklen : k < r.length := by omega
    have hdrop : r.drop k = r[k] :: r.drop (k + 1) := List.drop_eq_getElem_cons hklen
    rw [hdrop]
    simp only [List.enumFrom, List.foldl_cons]
    have hk0 : ¬ (k = 0) := by omega
    simp only [hk0, if_neg, if_false]
    rw [ih (k + 1) (t + D (r.getD (k - 1) 0) r[k]) (by omega) (by omega)]
    have hsub : k + 1 - 1 = k := by omega
    rw [hsub]
    have hb : k - 1 < r.length := by omega
    have he : k - 1 + 1 = k := by omega
    have hdrop2 : r.drop (k - 1) = r[k - 1] :: r.drop k := by
      rw [List.drop_eq_getElem_cons hb, he]
    rw [hdrop2, hdrop]
    have hgetD : r.getD (k - 1) 0 = r[k - 1] := List.getD_eq_getElem r 0 (by omega)
    rw [routeDistance, hgetD]
    ring
end Lemmas9
end RouteMaster

namespace RouteMaster
section Lemmas10
variable {α : Type} [LinearOrderedField α] (D T : ℕ → ℕ → α)

/-- The final-distance `reduce` computes exactly the consecutive-pair sum of
distance-matrix entries along the route. -/
lemma finalDistance_eq_routeDistance (r : List ℕ) :
    finalDistance D r = routeDistance D r := by
  cases r with
  | nil => rfl
  | cons a rest =>
    have h1 : (a :: rest).enum = (0, a) :: rest.enumFrom 1 := rfl
    rw [finalDistance, h1]
    simp only [List.foldl_cons, if_pos]
    have h3 := finalDistance_aux D (a :: rest) rest.length 1 0 (by omega)
      (by rw [List.length_cons]; omega)
    simpa using h3

end Lemmas10
end RouteMaster

namespace RouteMaster

/-- Haversine symmetry, as a reusable helper. -/
lemma calculateDistance_comm (A B : Location) :
    calculateDistance A B = calculateDistance B A := by
  have sq : ∀ x : ℝ, Real.sin (-x) * Real.sin (-x) = Real.sin x * Real.sin x := by
    intro x; rw [Real.sin_neg]; ring
  have sq2 : ∀ c x : ℝ, c * Real.sin (-x) * Real.sin (-x) = c * Real.sin x * Real.sin x := by
    intro c x; rw [Real.sin_neg]; ring
  have e1 : (B.lat - A.lat) * Real.pi / 180 / 2 = -((A.lat - B.lat) * Real.pi / 180 / 2) := by
    ring
  have e2 : (B.lng - A.lng) * Real.pi / 180 / 2 = -((A.lng - B.lng) * Real.pi / 180 / 2) := by
    ring
  simp only [calculateDistance]
  rw [e1, e2, sq ((A.lat - B.lat) * Real.pi / 180 / 2),
    sq2 (Real.cos (A.lat * Real.pi / 180) * Real.cos (B.lat * Real.pi / 180))
      ((A.lng - B.lng) * Real.pi / 180 / 2),
    mul_comm (Real.cos (A.lat * Real.pi / 180)) (Real.cos (B.lat * Real.pi / 180))]

/-- Off-diagonal / diagonal value of the built distance matrix. -/
lemma distanceMatrix_entry (pts : List Location) (i j : ℕ)
    (hi : i < pts.length) (hj : j < pts.length) :
    entry (distanceMatrix pts) i j =
      if i = j then 0 else calculateDistance (pts.getD i default) (pts.getD j default) := by
  simp [entry, distanceMatrix, List.getD_eq_getElem?_getD, List.getElem?_map,
    List.getElem?_range, hi, hj]

/-- Off-diagonal / diagonal value of the built time matrix, with the hour read
the cell's own clock oracle value. -/
lemma timeMatrix_entry (clock : ℕ → ℕ → ℕ) (pts : List Location) (i j : ℕ)
    (hi : i < pts.length) (hj : j < pts.length) :
    entry (timeMatrix clock pts) i j =
      if i = j then 0 else
        calculateDistance (pts.getD i default) (pts.getD j default) / 30 * 60 *
          trafficFactor (clock i j) := by
  simp [entry, timeMatrix, List.getD_eq_getElem?_getD, List.getElem?_map,
    List.getElem?_range, hi, hj]

lemma dist_locAB : calculateDistance locA locB = 3959 * Real.pi := by
  simp only [calculateDistance, locA, locB]
  norm_num
  have h2 : atan2 (1 : ℝ) 0 = Real.pi / 2 := by norm_num [atan2]
  rw [h2]
  ring

/-- C9: `calculateDistance` is symmetric in its two arguments. -/
theorem calculateDistance_symmetric (A B : Location) :
    calculateDistance A B = calculateDistance B A :=
  calculateDistance_comm A B

/-- C5 counterexample: with the wall clock crossing an hour boundary during
the matrix build (`badClock`), no single multiplier scales every off-diagonal
time cell of the call: cell (0,1) is scaled by 1.5, cell (1,0) by 0.8. -/
theorem traffic_multiplier_not_consistent :
    ¬ ∃ f : ℝ, ∀ i j : ℕ, i < 2 → j < 2 → i ≠ j →
      entry (timeMatrix badClock [locA, locB]) i j =
        entry (distanceMatrix [locA, locB]) i j / 30 * 60 * f := by
  rintro ⟨f, hf⟩
  have hlen : ([locA, locB] : List Location).length = 2 := rfl
  have h01 := hf 0 1 (by omega) (by omega) (by omega)
  have h10 := hf 1 0 (by omega) (by omega) (by omega)
  rw [timeMatrix_entry badClock [locA, locB] 0 1 (by omega) (by omega),
    distanceMatrix_entry [locA, locB] 0 1 (by omega) (by omega)] at h01
  rw [timeMatrix_entry badClock [locA, locB] 1 0 (by omega) (by omega),
    distanceMatrix_entry [locA, locB] 1 0 (by omega) (by omega)] at h10
  have hb01 : badClock 0 1 = 8 := rfl
  have hb10 : badClock 1 0 = 23 := rfl
  have hgd0 : ([locA, locB] : List Location).getD 0 default = locA := rfl
  have hgd1 : ([locA, locB] : List Location).getD 1 default = locB := rfl
  rw [hb01, hgd0, hgd1] at h01
  rw [hb10, hgd0, hgd1] at h10
  have ht8 : trafficFactor 8 = 1.5 := by norm_num [trafficFactor]
  have ht23 : trafficFactor 23 = 0.8 := by norm_num [trafficFactor]
  rw [ht8, dist_locAB] at h01
  rw [ht23, calculateDistance_comm locB locA, dist_locAB] at h10
  simp only [if_neg (by omega : ¬ (0 : ℕ) = 1), if_neg (by omega : ¬ (1 : ℕ) = 0)] at h01 h10
  have hK : (3959 : ℝ) * Real.pi / 30 * 60 ≠ 0 := by
    have := Real.pi_ne_zero
    positivity
  have hf15 : f = 1.5 := by
    have := mul_left_cancel₀ hK (h01.symm)
    linarith [this]
  have hf08 : f = 0.8 := by
    have := mul_left_cancel₀ hK (h10.symm)
    linarith [this]
  rw [hf15] at hf08
  norm_num at hf08

/-- C5 amended: the hour is read once per off-diagonal cell; whenever every
read of a call returns the same hour `h`, every time cell is the corresponding
distance cell scaled by the single multiplier `trafficFactor h`. -/
theorem timeMatrix_single_multiplier_of_constant_hour
    (pts : List Location) (h i j : ℕ)
    (hi : i < pts.length) (hj : j < pts.length) (hij : i ≠ j) :
    entry (timeMatrix (fun _ _ => h) pts) i j =
      entry (distanceMatrix pts) i j / 30 * 60 * trafficFactor h := by
  rw [timeMatrix_entry (fun _ _ => h) pts i j hi hj, distanceMatrix_entry pts i j hi hj]
  simp [hij]

theorem timeMatrix_single_multiplier_witness :
    ((0 : ℕ) < 2 ∧ (1 : ℕ) < 2 ∧ (0 : ℕ) ≠ 1) ∧
      entry (timeMatrix (fun _ _ => 8) [locA, locB]) 0 1 =
        entry (distanceMatrix [locA, locB]) 0 1 / 30 * 60 * trafficFactor 8 :=
  ⟨⟨by omega, by omega, by omega⟩,
    timeMatrix_single_multiplier_of_constant_hour [locA, locB] 8 0 1 (by simp) (by simp)
      (by omega)⟩

/-- C6: cells of the matrices built by `optimizeRoute` at a fixed hour `h`:
distance is the haversine distance off the diagonal and 0 on it; time is
`(distance / 30) * 60` scaled by the rush-hour/night/default multiplier. -/
theorem matrix_cells_spec (pts : List Location) (h i j : ℕ)
    (hi : i < pts.length) (hj : j < pts.length) :
    entry (distanceMatrix pts) i j =
      (if i = j then 0 else calculateDistance (pts.getD i default) (pts.getD j default)) ∧
    entry (timeMatrix (fun _ _ => h) pts) i j =
      (if i = j then 0 else
        entry (distanceMatrix pts) i j / 30 * 60 *
          (if (7 ≤ h ∧ h ≤ 10) ∨ (16 ≤ h ∧ h ≤ 19) then 1.5
           else if 22 ≤ h ∨ h ≤ 5 then 0.8 else 1)) := by
  refine ⟨distanceMatrix_entry pts i j hi hj, ?_⟩
  rw [timeMatrix_entry (fun _ _ => h) pts i j hi hj, distanceMatrix_entry pts i j hi hj]
  by_cases hij : i = j <;> simp [hij, trafficFactor]

theorem matrix_cells_spec_witness :
    ((0 : ℕ) < 2 ∧ (1 : ℕ) < 2) ∧
      (entry (distanceMatrix [locA, locB]) 0 1 =
        (if (0 : ℕ) = 1 then 0
         else calculateDistance (([locA, locB] : List Location).getD 0 default)
           (([locA, locB] : List Location).getD 1 default)) ∧
      entry (timeMatrix (fun _ _ => 12) [locA, locB]) 0 1 =
        (if (0 : ℕ) = 1 then 0 else
          entry (distanceMatrix [locA, locB]) 0 1 / 30 * 60 *
            (if (7 ≤ 12 ∧ 12 ≤ 10) ∨ (16 ≤ 12 ∧ 12 ≤ 19) then 1.5
             else if 22 ≤ 12 ∨ 12 ≤ 5 then 0.8 else 1))) :=
  ⟨⟨by omega, by omega⟩, matrix_cells_spec [locA, locB] 12 0 1 (by simp) (by simp)⟩

/-- C7: degenerate inputs: with zero stops the returned order is `[0, 1]`,
with one stop `[0, 1, 2]` — the nearest-neighbor loop and the 2-opt scan
contribute no reordering. -/
theorem optimizeRoute_degenerate_orders (clock : ℕ → ℕ → ℕ) (s : Location)
    (e : Option Location) :
    (optimizeRoute clock s [] e).order = [0, 1] ∧
    ∀ s1 : Location, (optimizeRoute clock s [s1] e).order = [0, 1, 2] := by
  constructor
  · cases e <;> rfl
  · intro s1; cases e <;> rfl

/-- C8: the reported distance is the sum of distance-matrix entries along the
final tour (not the blended score), and the reported duration is exactly 0. -/
theorem optimizeRoute_distance_and_duration (clock : ℕ → ℕ → ℕ) (s : Location)
    (stops : List Location) (e : Option Location) :
    (optimizeRoute clock s stops e).distance =
      routeDistance (entry (distanceMatrix (allPoints s stops e)))
        (optimizeRoute clock s stops e).order ∧
    (optimizeRoute clock s stops e).duration = 0 := by
  refine ⟨?_, rfl⟩
  have h : (optimizeRoute clock s stops e).distance =
      finalDistance (entry (distanceMatrix (allPoints s stops e)))
        (optimizeRoute clock s stops e).order := rfl
  rw [h, finalDistance_eq_routeDistance]

/-- C4 counterexample: on the cost matrices produced by a NaN stop coordinate
(every candidate score NaN), the nearest-neighbor selection keeps the sentinel
`-1` — not a real unvisited index — and the next loop iteration's matrix row
access `matrix[-1]` is out of bounds, so the call throws instead of
terminating normally with a tour. -/
theorem nan_coordinate_crashes_nearestNeighbor :
    findNearestNeighborRouteJ 2 nanMatrix3 nanMatrix3 3 = some (Except.error ()) ∧
    selectLoopJ nanMatrix3 nanMatrix3 0 [1] (-1) JNum.posInf = Except.ok (-1, JNum.posInf) ∧
    ¬ ((-1 : Int) ∈ ([1] : List Int)) ∧
    jRow nanMatrix3 (-1) = none := by
  exact ⟨rfl, rfl, by decide, rfl⟩

/-- C4 amended: no input validation exists, and over finite scores (any linear
order, hence any input with finite coordinates) the selection always picks a
real unvisited index; but NaN scores break this, see the counterexample. -/
theorem selectNearest_total_of_finite (D T : ℕ → ℕ → ℚ) (current : ℕ)
    (l : List ℕ) (hne : l ≠ []) :
    ∃ m, selectNearest D T current l = some m ∧ m ∈ l := by
  obtain ⟨m, hsel, hmem, -⟩ := selectNearest_mem D T current l hne
  exact ⟨m, hsel, hmem⟩

theorem selectNearest_total_of_finite_witness :
    (([3, 5] : List ℕ) ≠ []) ∧
      ∃ m, selectNearest (fun _ _ => (0 : ℚ)) (fun _ _ => 0) 0 [3, 5] = some m ∧
        m ∈ ([3, 5] : List ℕ) :=
  ⟨by decide, selectNearest_total_of_finite (fun _ _ => 0) (fun _ _ => 0) 0 [3, 5] (by decide)⟩

/-- C10: the unvisited indices are created in ascending order and a JS `Set`
deletes in place, preserving that order; the strict `<` comparison keeps the
first minimum scanned, so among tied candidates the smallest index wins. -/
theorem selectNearest_ties_lowest_index (D T : ℕ → ℕ → ℚ) (current : ℕ)
    (l : List ℕ) (hne : l ≠ []) (hsort : l.Sorted (· < ·)) :
    (∃ m, selectNearest D T current l = some m ∧ m ∈ l ∧
      (∀ x ∈ l, combinedScore D T current m ≤ combinedScore D T current x) ∧
      (∀ x ∈ l, combinedScore D T current x = combinedScore D T current m → m ≤ x)) ∧
    (∀ k : ℕ, (List.range' 1 k).Sorted (· < ·)) ∧
    (∀ (u : List ℕ) (a : ℕ), u.Sorted (· < ·) → (u.erase a).Sorted (· < ·)) := by
  refine ⟨selectNearest_sorted D T current l hne hsort, ?_, ?_⟩
  · intro k
    exact List.pairwise_lt_range' 1 k 1 (by omega)
  · intro u a hu
    exact hu.sublist (u.erase_sublist a)

theorem selectNearest_ties_lowest_index_witness :
    (([1, 2] : List ℕ) ≠ [] ∧ ([1, 2] : List ℕ).Sorted (· < ·)) ∧
      ((∃ m, selectNearest (fun _ _ => (0 : ℚ)) (fun _ _ => 0) 0 [1, 2] = some m ∧
        m ∈ ([1, 2] : List ℕ) ∧
        (∀ x ∈ ([1, 2] : List ℕ),
          combinedScore (fun _ _ => (0 : ℚ)) (fun _ _ => 0) 0 m ≤
            combinedScore (fun _ _ => (0 : ℚ)) (fun _ _ => 0) 0 x) ∧
        (∀ x ∈ ([1, 2] : List ℕ),
          combinedScore (fun _ _ => (0 : ℚ)) (fun _ _ => 0) 0 x =
            combinedScore (fun _ _ => (0 : ℚ)) (fun _ _ => 0) 0 m → m ≤ x)) ∧
      (∀ k : ℕ, (List.range' 1 k).Sorted (· < ·)) ∧
      (∀ (u : List ℕ) (a : ℕ), u.Sorted (· < ·) → (u.erase a).Sorted (· < ·))) :=
  ⟨⟨by decide, by decide⟩,
    selectNearest_ties_lowest_index (fun _ _ => 0) (fun _ _ => 0) 0 [1, 2] (by decide)
      (by decide)⟩

/-- C2: the blended score of the tour returned by 2-opt improvement is at most
the blended score of the nearest-neighbor tour it started from, over the
matrices of the same call. -/
theorem improve2Opt_score_monotone (clock : ℕ → ℕ → ℕ) (s : Location)
    (stops : List Location) (e : Option Location) :
    calculateRouteScore (entry (distanceMatrix (allPoints s stops e)))
        (entry (timeMatrix clock (allPoints s stops e)))
        (optimizeRoute clock s stops e).order ≤
      calculateRouteScore (entry (distanceMatrix (allPoints s stops e)))
        (entry (timeMatrix clock (allPoints s stops e)))
        (findNearestNeighborRoute (entry (distanceMatrix (allPoints s stops e)))
          (entry (timeMatrix clock (allPoints s stops e)))
          (allPoints s stops e).length) := by
  have h : (optimizeRoute clock s stops e).order =
      improve2Opt (entry (distanceMatrix (allPoints s stops e)))
        (entry (timeMatrix clock (allPoints s stops e)))
        (findNearestNeighborRoute (entry (distanceMatrix (allPoints s stops e)))
          (entry (timeMatrix clock (allPoints s stops e)))
          (allPoints s stops e).length) := rfl
  rw [h]
  exact (improve2Opt_spec (entry (distanceMatrix (allPoints s stops e)))
    (entry (timeMatrix clock (allPoints s stops e)))
    (findNearestNeighborRoute (entry (distanceMatrix (allPoints s stops e)))
      (entry (timeMatrix clock (allPoints s stops e)))
      (allPoints s stops e).length)).2.2.2

lemma allPoints_length (s : Location) (stops : List Location) (e : Option Location) :
    (allPoints s stops e).length = stops.length + 2 := by
  cases e <;> simp [allPoints]

lemma range_decomp (k : ℕ) :
    List.range (k + 2) = 0 :: (List.range' 1 k ++ [k + 1]) := by
  have h0 : (0 : ℕ) + 1 = 1 := rfl
  rw [List.range_eq_range', List.range'_succ 0 (k + 1) 1, h0, List.range'_concat 1 k]
  norm_num [Nat.add_comm]

/-- A tour that starts at 0, ends at `m`, and is a permutation of
`0 :: (X ++ [m])` has its interior a permutation of `X`. -/
lemma middle_perm_of (o X : List ℕ) (m : ℕ)
    (hhead : o.head? = some 0) (hlast : o.getLast? = some m)
    (hperm : o.Perm (0 :: (X ++ [m]))) :
    ((o.drop 1).dropLast).Perm X := by
  cases o with
  | nil => simp at hhead
  | cons a o2 =>
    have ha : a = 0 := by simpa using hhead
    subst ha
    have h2 : o2.Perm (X ++ [m]) := hperm.cons_inv
    have ho2ne : o2 ≠ [] := by
      intro h
      subst h
      have := h2.length_eq
      simp at this
    have hlast2 : o2.getLast? = some m := by
      cases o2 with
      | nil => exact absurd rfl ho2ne
      | cons b o3 =>
        rw [List.getLast?_cons_cons] at hlast
        exact hlast
    have hgl : o2.getLast ho2ne = m := by
      rw [List.getLast?_eq_getLast o2 ho2ne] at hlast2
      exact Option.some_inj.mp hlast2
    have hdecomp : o2.dropLast ++ [m] = o2 := by
      rw [← hgl]
      exact List.dropLast_append_getLast ho2ne
    have hperm2 : (o2.dropLast ++ [m]).Perm (X ++ [m]) := by
      rw [hdecomp]
      exact h2
    have hperm3 : (m :: o2.dropLast).Perm (m :: X) :=
      ((List.perm_append_singleton m o2.dropLast).symm.trans hperm2).trans
        (List.perm_append_singleton m X)
    have hfin := hperm3.cons_inv
    simpa [hdecomp] using hfin

/-- C1: the returned order is a permutation of `0..n-1` with 0 first,
`n-1` last, and the interior a permutation of `1..n-2`; the same holds for the
nearest-neighbor tour, and a 2-opt reversal inside the anchors preserves the
multiset and both anchors. -/
theorem optimizeRoute_order_permutation (clock : ℕ → ℕ → ℕ) (s : Location)
    (stops : List Location) (e : Option Location) :
    ((optimizeRoute clock s stops e).order.head? = some 0 ∧
      (optimizeRoute clock s stops e).order.getLast? = some (stops.length + 1) ∧
      (optimizeRoute clock s stops e).order.Perm (List.range (stops.length + 2)) ∧
      (((optimizeRoute clock s stops e).order.drop 1).dropLast).Perm
        (List.range' 1 stops.length)) ∧
    ((findNearestNeighborRoute (entry (distanceMatrix (allPoints s stops e)))
        (entry (timeMatrix clock (allPoints s stops e)))
        (allPoints s stops e).length).head? = some 0 ∧
      (findNearestNeighborRoute (entry (distanceMatrix (allPoints s stops e)))
        (entry (timeMatrix clock (allPoints s stops e)))
        (allPoints s stops e).length).getLast? = some (stops.length + 1) ∧
      (findNearestNeighborRoute (entry (distanceMatrix (allPoints s stops e)))
        (entry (timeMatrix clock (allPoints s stops e)))
        (allPoints s stops e).length).Perm (List.range (stops.length + 2))) ∧
    (∀ (r : List ℕ) (i j : ℕ), 1 ≤ i → i ≤ j → j + 2 ≤ r.length →
      (twoOptSwap r i j).Perm r ∧ (twoOptSwap r i j).head? = r.head? ∧
      (twoOptSwap r i j).getLast? = r.getLast?) := by
  obtain ⟨t, hnn, hperm_t⟩ := findNN_struct
    (entry (distanceMatrix (allPoints s stops e)))
    (entry (timeMatrix clock (allPoints s stops e)))
    (allPoints s stops e).length
  have hlen := allPoints_length s stops e
  have hnn2 : findNearestNeighborRoute (entry (distanceMatrix (allPoints s stops e)))
      (entry (timeMatrix clock (allPoints s stops e)))
      (allPoints s stops e).length = 0 :: (t ++ [stops.length + 1]) := by
    rw [hnn, hlen]
    rfl
  have hperm_t2 : t.Perm (List.range' 1 stops.length) := by
    rw [hlen] at hperm_t
    exact hperm_t
  have hnn_head : (findNearestNeighborRoute (entry (distanceMatrix (allPoints s stops e)))
      (entry (timeMatrix clock (allPoints s stops e)))
      (allPoints s stops e).length).head? = some 0 := by
    rw [hnn2]
    rfl
  have hnn_last : (findNearestNeighborRoute (entry (distanceMatrix (allPoints s stops e)))
      (entry (timeMatrix clock (allPoints s stops e)))
      (allPoints s stops e).length).getLast? = some (stops.length + 1) := by
    rw [hnn2, ← List.cons_append, List.getLast?_concat]
  have hnn_perm : (findNearestNeighborRoute (entry (distanceMatrix (allPoints s stops e)))
      (entry (timeMatrix clock (allPoints s stops e)))
      (allPoints s stops e).length).Perm (List.range (stops.length + 2)) := by
    rw [hnn2, range_decomp]
    exact (hperm_t2.append_right [stops.length + 1]).cons 0
  have hspec := improve2Opt_spec (entry (distanceMatrix (allPoints s stops e)))
    (entry (timeMatrix clock (allPoints s stops e)))
    (findNearestNeighborRoute (entry (distanceMatrix (allPoints s stops e)))
      (entry (timeMatrix clock (allPoints s stops e)))
      (allPoints s stops e).length)
  obtain ⟨hoperm, hohead, holast, -⟩ := hspec
  have horder : (optimizeRoute clock s stops e).order =
      improve2Opt (entry (distanceMatrix (allPoints s stops e)))
        (entry (timeMatrix clock (allPoints s stops e)))
        (findNearestNeighborRoute (entry (distanceMatrix (allPoints s stops e)))
          (entry (timeMatrix clock (allPoints s stops e)))
          (allPoints s stops e).length) := rfl
  have ho_head : (optimizeRoute clock s stops e).order.head? = some 0 := by
    rw [horder, hohead]
    exact hnn_head
  have ho_last : (optimizeRoute clock s stops e).order.getLast? =
      some (stops.length + 1) := by
    rw [horder, holast]
    exact hnn_last
  have ho_perm : (optimizeRoute clock s stops e).order.Perm
      (List.range (stops.length + 2)) := by
    rw [horder]
    exact hoperm.trans hnn_perm
  refine ⟨⟨ho_head, ho_last, ho_perm, ?_⟩, ⟨hnn_head, hnn_last, hnn_perm⟩, ?_⟩
  · apply middle_perm_of _ _ (stops.length + 1) ho_head ho_last
    rw [← range_decomp]
    exact ho_perm
  · intro r i j h1 h2 h3
    exact ⟨twoOptSwap_perm r i j, twoOptSwap_head? r i j h1,
      twoOptSwap_getLast? r i j h2 h3⟩

theorem optimizeRoute_order_permutation_witness :
    ((1 : ℕ) ≤ 1 ∧ (1 : ℕ) ≤ 2 ∧ 2 + 2 ≤ ([0, 1, 2, 3] : List ℕ).length) ∧
      ((twoOptSwap [0, 1, 2, 3] 1 2).Perm [0, 1, 2, 3] ∧
        (twoOptSwap [0, 1, 2, 3] 1 2).head? = ([0, 1, 2, 3] : List ℕ).head? ∧
        (twoOptSwap [0, 1, 2, 3] 1 2).getLast? = ([0, 1, 2, 3] : List ℕ).getLast?) :=
  ⟨⟨by omega, by omega, by simp⟩,
    (optimizeRoute_order_permutation (fun _ _ => 12) locA [] none).2.2 [0, 1, 2, 3] 1 2
      (by omega) (by omega) (by simp)⟩

lemma routeDistance_nonneg {α : Type} [LinearOrderedField α] (D : ℕ → ℕ → α)
    (hD : ∀ i j, 0 ≤ D i j) : ∀ l : List ℕ, 0 ≤ routeDistance D l := by
  intro l
  induction l with
  | nil => simp [routeDistance]
  | cons a tail ih =>
    cases tail with
    | nil => simp [routeDistance]
    | cons b rest =>
      rw [routeDistance]
      exact add_nonneg (hD a b) ih

lemma routeTime_nonneg {α : Type} [LinearOrderedField α] (T : ℕ → ℕ → α)
    (hT : ∀ i j, 0 ≤ T i j) : ∀ l : List ℕ, 0 ≤ routeTime T l := by
  intro l
  induction l with
  | nil => simp [routeTime]
  | cons a tail ih =>
    cases tail with
    | nil => simp [routeTime]
    | cons b rest =>
      rw [routeTime]
      exact add_nonneg (hT a b) ih

/-- C3: the 2-opt loop terminates.  (a) a pass that newly reports an
improvement strictly decreased the running best score; (b) with nonnegative
matrices the score is bounded below by zero; (c) only finitely many tours
exist, so fuel `length! + 1` already reaches the loop's natural exit: the
fueled loop is fuel-independent beyond it, and one more pass over the result
reports no improvement (the `while (improved)` guard goes false). -/
theorem improve2Opt_termination (D T : ℕ → ℕ → ℚ) :
    (∀ (ps : List (ℕ × ℕ)) (r : List ℕ) (b : ℚ),
      (∀ p ∈ ps, 1 ≤ p.1 ∧ p.1 + 1 ≤ p.2 ∧ p.2 + 2 ≤ r.length) →
      b = calculateRouteScore D T r →
      (scanPairs D T ps r b false).2.2 = true → (scanPairs D T ps r b false).2.1 < b) ∧
    ((∀ i j, 0 ≤ D i j) → (∀ i j, 0 ≤ T i j) →
      ∀ r : List ℕ, 0 ≤ calculateRouteScore D T r) ∧
    (∀ (r : List ℕ) (fuel : ℕ), Nat.factorial r.length + 1 ≤ fuel →
      improve2OptLoop D T fuel r (calculateRouteScore D T r) = improve2Opt D T r ∧
      (scanPairs D T (pairsIdx (improve2Opt D T r).length) (improve2Opt D T r)
        (calculateRouteScore D T (improve2Opt D T r)) false).2.2 = false) := by
  refine ⟨?_, ?_, ?_⟩
  · intro ps r b hps hb
    obtain ⟨-, -, -, -, -, -, -, hdec⟩ := scanPairs_spec D T ps r b false hps hb
    exact hdec rfl
  · intro hD hT r
    rw [calculateRouteScore]
    have h1 := routeDistance_nonneg D hD r
    have h2 := routeTime_nonneg T hT r
    positivity
  · intro r fuel hfuel
    have hmeas : belowCount D T r r < belowCount D T r r + 1 := Nat.lt_succ_self _
    have hbound : belowCount D T r r + 1 ≤ Nat.factorial r.length + 1 := by
      have := belowCount_le D T r r
      omega
    constructor
    · exact improve2OptLoop_stable D T (belowCount D T r r + 1) r r fuel
        (Nat.factorial r.length + 1) (List.Perm.refl r) hmeas (by omega) hbound
    · exact improve2OptLoop_fixpoint D T (belowCount D T r r + 1) r r
        (Nat.factorial r.length + 1) (List.Perm.refl r) hmeas hbound

theorem improve2Opt_termination_witness :
    (Nat.factorial ([0, 1, 2] : List ℕ).length + 1 ≤ 7) ∧
      (improve2OptLoop (fun _ _ => (1 : ℚ)) (fun _ _ => 1) 7 [0, 1, 2]
          (calculateRouteScore (fun _ _ => 1) (fun _ _ => 1) [0, 1, 2]) =
        improve2Opt (fun _ _ => (1 : ℚ)) (fun _ _ => 1) [0, 1, 2] ∧
      (scanPairs (fun _ _ => (1 : ℚ)) (fun _ _ => 1)
        (pairsIdx (improve2Opt (fun _ _ => (1 : ℚ)) (fun _ _ => 1) [0, 1, 2]).length)
        (improve2Opt (fun _ _ => (1 : ℚ)) (fun _ _ => 1) [0, 1, 2])
        (calculateRouteScore (fun _ _ => 1) (fun _ _ => 1)
          (improve2Opt (fun _ _ => (1 : ℚ)) (fun _ _ => 1) [0, 1, 2]))
        false).2.2 = false) :=
  ⟨by simp [Nat.factorial], (improve2Opt_termination (fun _ _ => 1) (fun _ _ => 1)).2.2
    [0, 1, 2] 7 (by simp [Nat.factorial])⟩
